import Mathlib

/-!
Shallow embedding of the core of `src/App.jsx`: the query engine
(`mockSearch`) and the CSV exporter (`escapeCSVValue`, `toCSV`), plus the
filename/timestamp helpers of the surrounding UI.  Strings are modelled as
`List Char`; JavaScript values reaching the CSV layer are modelled by
`JSValue`; rows are association lists preserving key order, matching
JavaScript object key order.
-/

unseal List.merge List.mergeSort

/-- Strings are modelled as lists of characters. -/
abbrev Str := List Char

/-- The ECMAScript whitespace class (`\s` in a JS regex, and the set removed
by `String.prototype.trim`): tab, LF, VT, FF, CR, space, NBSP, and the
Unicode space separators, line/paragraph separators and ZWNBSP. -/
def isJSWhitespace (c : Char) : Bool :=
  let n := c.toNat
  n = 9 || n = 10 || n = 11 || n = 12 || n = 13 || n = 32 ||
  n = 0xa0 || n = 0x1680 || (decide (0x2000 ≤ n) && decide (n ≤ 0x200a)) ||
  n = 0x2028 || n = 0x2029 || n = 0x202f || n = 0x205f ||
  n = 0x3000 || n = 0xfeff

/-- JavaScript values that can appear as a cell of an exported row:
`undefined` (also the result of reading an absent key), `null`, strings and
(integer) numbers; the mock data only ever holds integers. -/
inductive JSValue where
  | vundef
  | vnull
  | vstr (s : Str)
  | vnum (n : Int)
deriving DecidableEq

/-- JavaScript `String(value)` on a `JSValue` (canonical string
representation; only the string and number cases are ever reached by
`escapeCSVValue`, which returns early on `null`/`undefined`). -/
def jsString : JSValue → Str
  | .vundef => "undefined".toList
  | .vnull => "null".toList
  | .vstr s => s
  | .vnum n => (toString n).toList

/-- The string a cell value contributes to the CSV before escaping:
`null`/`undefined` give the empty string, otherwise `String(value)`. -/
def cellStr : JSValue → Str
  | .vundef => []
  | .vnull => []
  | v => jsString v

/-- The test `/[",\n\r]|^\s|\s$/.test(str)` of `escapeCSVValue`: the string
contains a double quote, comma, LF or CR, or starts or ends with a
JS-whitespace character. -/
def needsQuotesB (s : Str) : Bool :=
  s.any (fun c => c = '"' || c = ',' || c = '\n' || c = '\r') ||
  (match s.head? with | none => false | some c => isJSWhitespace c) ||
  (match s.getLast? with | none => false | some c => isJSWhitespace c)

/-- `str.replace(/"/g, '""')`: double every double-quote character. -/
def doubleQuotes : Str → Str
  | [] => []
  | c :: rest => (if c = '"' then ['"', '"'] else [c]) ++ doubleQuotes rest

/-- `escapeCSVValue` from App.jsx: empty for `null`/`undefined`; otherwise
stringify, double embedded quotes, and wrap in quotes when needed. -/
def escapeCSVValue (value : JSValue) : Str :=
  match value with
  | .vnull => []
  | .vundef => []
  | v =>
    let str := jsString v
    let escaped := doubleQuotes str
    if needsQuotesB str then '"' :: (escaped ++ ['"']) else escaped

/-- A row is a JavaScript object: an association list of keys and values in
key order.  Keys of a JS object are unique; lookup returns the first hit. -/
abbrev Row := List (Str × JSValue)

/-- `r[c]`: property access, `undefined` when the key is absent. -/
def rowGet (r : Row) (c : Str) : JSValue :=
  match r with
  | [] => .vundef
  | (k, v) :: rest => if k = c then v else rowGet rest c

/-- `Array.prototype.join(sep)` on a list of strings. -/
def joinWith (sep : Str) : List Str → Str
  | [] => []
  | [x] => x
  | x :: y :: rest => x ++ sep ++ joinWith sep (y :: rest)

/-- Column resolution of `toCSV`: a non-empty `columns` argument is used
verbatim; otherwise the key order of the first row; otherwise empty. -/
def resolveCols (rows : List Row) (columns : List Str) : List Str :=
  if columns ≠ [] then columns
  else match rows with
    | [] => []
    | r :: _ => r.map (·.1)

/-- `toCSV(rows, columns)` from App.jsx: the raw-joined header and the
escaped row lines, joined with CRLF. -/
def toCSV (rows : List Row) (columns : List Str) : Str :=
  let cols := resolveCols rows columns
  let header := joinWith [','] cols
  let lines := rows.map (fun r => joinWith [','] (cols.map (fun c => escapeCSVValue (rowGet r c))))
  joinWith ['\r', '\n'] (header :: lines)

/-- A record of the fixed dataset: `{ id, name, category, score }`. -/
structure SearchRecord where
  id : Int
  name : Str
  category : Str
  score : Int
deriving DecidableEq

/-- The fixed in-memory dataset `MOCK_DATA` of App.jsx. -/
def MOCK_DATA : List SearchRecord :=
  [⟨1, "Acme Analytics Suite".toList, "Analytics".toList, 92⟩,
   ⟨2, "Beacon Billing".toList, "FinTech".toList, 84⟩,
   ⟨3, "Cinder CRM".toList, "Sales".toList, 88⟩,
   ⟨4, "Delta Docs".toList, "Docs".toList, 77⟩,
   ⟨5, "Echo ETL".toList, "Data".toList, 81⟩,
   ⟨6, "Flux Forecast".toList, "Analytics".toList, 90⟩,
   ⟨7, "Glint Gateway".toList, "FinTech".toList, 73⟩,
   ⟨8, "Helio Helpdesk".toList, "Support".toList, 85⟩,
   ⟨9, "Iota Insights".toList, "Analytics".toList, 89⟩,
   ⟨10, "Jolt Jira Sync".toList, "DevTools".toList, 80⟩]

/-- `String.prototype.trim()`: strip leading and trailing JS whitespace. -/
def trimJS (s : Str) : Str :=
  ((s.dropWhile isJSWhitespace).reverse.dropWhile isJSWhitespace).reverse

/-- `String.prototype.toLowerCase()`, modelled on the ASCII range (the fixed
dataset is ASCII; `Char.toLower` is the identity beyond it). -/
def lowerJS (s : Str) : Str := s.map Char.toLower

/-- `query.trim().toLowerCase()`: the normalized query `q` of `mockSearch`. -/
def normalizeQuery (query : Str) : Str := lowerJS (trimJS query)

/-- `haystack.includes(needle)`: substring containment, by a left-to-right
scan for a position where `needle` is a prefix. -/
def includesJS (haystack needle : Str) : Bool :=
  match haystack with
  | [] => needle = []
  | c :: rest => needle.isPrefixOf (c :: rest) || includesJS rest needle

/-- The filter predicate of `mockSearch`: lowercased `name` or lowercased
`category` contains the normalized query `q`. -/
def matchesQuery (q : Str) (r : SearchRecord) : Bool :=
  includesJS (lowerJS r.name) q || includesJS (lowerJS r.category) q

/-- The comparator `(a, b) => b.score - a.score` passed to the stable
`Array.prototype.sort`, as the boolean relation "a may stay before b":
`b.score - a.score <= 0`. -/
def scoreDescLE (a b : SearchRecord) : Bool := b.score ≤ a.score

/-- The result bundle `{ items, explanation, tips }` of `mockSearch`. -/
structure SearchResult where
  items : List SearchRecord
  explanation : Str
  tips : List Str
deriving DecidableEq

/-- Decimal representation of a count, as in `${items.length}`. -/
def natStr (n : Nat) : Str := (toString n).toList

/-- The fixed explanation of the empty-query branch of `mockSearch`. -/
def emptyQueryExplanation : Str :=
  "Type a query and press Search. Results are mocked for demo.".toList

/-- The single fixed tip of the empty-query branch of `mockSearch`. -/
def emptyQueryTip : Str :=
  "Filtering matches on name or category (case-insensitive).".toList

/-- The templated explanation of the non-empty branch: count and the
original (non-normalized) query text. -/
def showingExplanation (count : Nat) (query : Str) : Str :=
  "Showing ".toList ++ natStr count ++ " result(s) for \"".toList ++ query ++
  "\". This mocked search filters by name/category and sorts by mocked \"score\" (desc).".toList

/-- The three tips of the non-empty branch. -/
def showingTips (query : Str) : List Str :=
  ["Filter: name/category contains \"".toList ++ query ++ "\" (case-insensitive).".toList,
   "Sort: score descending.".toList,
   "To go real, replace mockSearch() with an API call.".toList]

/-- `mockSearch(query)` from App.jsx, with the record collection it closes
over (`MOCK_DATA` in the source) made an explicit parameter as in the
contract `search(query, records)`.  Filtering keeps records whose lowercased
name or category contains the normalized query; the kept records are sorted
with JavaScript's stable sort under the comparator `b.score - a.score`,
modelled by the stable `List.mergeSort` under `scoreDescLE`. -/
def mockSearch (records : List SearchRecord) (query : Str) : SearchResult :=
  let q := normalizeQuery query
  if q = [] then
    { items := [], explanation := emptyQueryExplanation, tips := [emptyQueryTip] }
  else
    let items := (records.filter (matchesQuery q)).mergeSort scoreDescLE
    { items := items
      explanation := showingExplanation items.length query
      tips := showingTips query }

/-- `mockSearch` as the source has it, over the fixed `MOCK_DATA`. -/
def mockSearchData (query : Str) : SearchResult := mockSearch MOCK_DATA query

/-- `String(n).padStart(2, "0")` on a natural number. -/
def pad2 (n : Nat) : Str := List.replicate (2 - (natStr n).length) '0' ++ natStr n

/-- The local-time fields read off a JS `Date`, with the accessor semantics
of the source: `month0` is the 0-based `getMonth()`. -/
structure LocalDate where
  fullYear : Nat
  month0 : Nat
  day : Nat
  hours : Nat
  minutes : Nat
  seconds : Nat

/-- `timestamp()` from App.jsx: `YYYYMMDD-HHMMSS` built from the local date
with `pad` applied to every field except the year. -/
def timestampStr (d : LocalDate) : Str :=
  natStr d.fullYear ++ pad2 (d.month0 + 1) ++ pad2 d.day ++ "-".toList ++
  pad2 d.hours ++ pad2 d.minutes ++ pad2 d.seconds

/-- The filename of `exportFilteredCSV`:
``results_${submittedQuery || "empty"}_${timestamp()}.csv``.  A JS string is
falsy exactly when it is empty. -/
def exportFilteredName (submittedQuery : Str) (d : LocalDate) : Str :=
  "results_".toList ++ (if submittedQuery = [] then "empty".toList else submittedQuery) ++
  "_".toList ++ timestampStr d ++ ".csv".toList

/-- Prepend a character to the first part of a split (helper of the split
functions used to state the round-trip properties). -/
def consFirst (c : Char) : List Str → List Str
  | [] => [[c]]
  | p :: ps => (c :: p) :: ps

/-- `str.split(sep)` for a one-character separator `sep` (used with `,`):
left-to-right scan, empty parts kept, `"".split(sep) = [""]`. -/
def splitCh (a : Char) : Str → List Str
  | [] => [[]]
  | c :: rest => if c = a then [] :: splitCh a rest else consFirst c (splitCh a rest)

/-- `str.split("\r\n")`: left-to-right scan for non-overlapping occurrences
of CRLF, empty parts kept. -/
def splitCRLF : Str → List Str
  | [] => [[]]
  | [c] => [[c]]
  | c₁ :: c₂ :: rest =>
    if c₁ = '\r' ∧ c₂ = '\n' then [] :: splitCRLF rest
    else consFirst c₁ (splitCRLF (c₂ :: rest))

/-- A plain alphanumeric character: an ASCII digit or letter. -/
def isAlnumCh (c : Char) : Bool :=
  (decide (48 ≤ c.toNat) && decide (c.toNat ≤ 57)) ||
  (decide (65 ≤ c.toNat) && decide (c.toNat ≤ 90)) ||
  (decide (97 ≤ c.toNat) && decide (c.toNat ≤ 122))

/-- The specification's quoting condition, stated from its words: the value
contains a double-quote, a comma, a carriage return, or a line feed, or has
leading or trailing whitespace. -/
def specNeedsQuoting (s : Str) : Prop :=
  '"' ∈ s ∨ ',' ∈ s ∨ '\r' ∈ s ∨ '\n' ∈ s ∨
  (∃ c, s.head? = some c ∧ isJSWhitespace c = true) ∨
  (∃ c, s.getLast? = some c ∧ isJSWhitespace c = true)

-- sanity checks on concrete inputs
example : splitCRLF "a,b\r\n1,x\r\n".toList = ["a,b".toList, "1,x".toList, []] := by decide
example : splitCh ',' "a,,b".toList = ["a".toList, [], "b".toList] := by decide
example : normalizeQuery "  FinTech ".toList = "fintech".toList := by decide
example : (mockSearchData "analytics".toList).items.map (·.id) = [1, 6, 9] := by decide
example : (mockSearchData "e".toList).items.map (·.id) = [1, 6, 3, 8, 2, 5, 10, 4, 7] := by decide
example :
    (mockSearch [⟨1, "aa".toList, "x".toList, 50⟩, ⟨2, "ab".toList, "x".toList, 90⟩,
      ⟨3, "ac".toList, "x".toList, 50⟩] "a".toList).items.map (·.id) = [2, 1, 3] := by decide
example : exportFilteredName [] ⟨2025, 8, 25, 2, 15, 30⟩ =
    "results_empty_20250925-021530.csv".toList := by decide

example : escapeCSVValue (.vstr "Acme, Inc.".toList) = "\"Acme, Inc.\"".toList := by decide
example : escapeCSVValue (.vstr "Say \"hi\"".toList) = "\"Say \"\"hi\"\"\"".toList := by decide
example : escapeCSVValue .vnull = [] := by decide
example : toCSV [] [] = [] := by decide
example :
    toCSV [[("a".toList, .vnum 1), ("b".toList, .vstr "x".toList)]] [] =
      "a,b\r\n1,x".toList := by decide

/-! ### Character-class lemmas -/

theorem isAlnumCh_spec {c : Char} (h : isAlnumCh c = true) :
    (48 ≤ c.toNat ∧ c.toNat ≤ 57) ∨ (65 ≤ c.toNat ∧ c.toNat ≤ 90) ∨
    (97 ≤ c.toNat ∧ c.toNat ≤ 122) := by
  simpa [isAlnumCh, Bool.or_eq_true, Bool.and_eq_true, decide_eq_true_eq, or_assoc] using h

theorem isJSWhitespace_spec {c : Char} (h : isJSWhitespace c = true) :
    c.toNat = 9 ∨ c.toNat = 10 ∨ c.toNat = 11 ∨ c.toNat = 12 ∨ c.toNat = 13 ∨
    c.toNat = 32 ∨ c.toNat = 0xa0 ∨ c.toNat = 0x1680 ∨
    (0x2000 ≤ c.toNat ∧ c.toNat ≤ 0x200a) ∨ c.toNat = 0x2028 ∨ c.toNat = 0x2029 ∨
    c.toNat = 0x202f ∨ c.toNat = 0x205f ∨ c.toNat = 0x3000 ∨ c.toNat = 0xfeff := by
  simpa [isJSWhitespace, Bool.or_eq_true, Bool.and_eq_true, decide_eq_true_eq, or_assoc] using h

/-- An alphanumeric character is none of the CSV-significant characters and
is not JS whitespace. -/
theorem alnum_not_special {c : Char} (h : isAlnumCh c = true) :
    c ≠ '"' ∧ c ≠ ',' ∧ c ≠ '\n' ∧ c ≠ '\r' ∧ isJSWhitespace c = false := by
  have hn := isAlnumCh_spec h
  refine ⟨fun he => ?_, fun he => ?_, fun he => ?_, fun he => ?_, ?_⟩
  · subst he; exact absurd h (by decide)
  · subst he; exact absurd h (by decide)
  · subst he; exact absurd h (by decide)
  · subst he; exact absurd h (by decide)
  · cases hws : isJSWhitespace c with
    | false => rfl
    | true => exact absurd (isJSWhitespace_spec hws) (by rcases hn with h | h | h <;> omega)

/-! ### Basic lemmas about the CSV building blocks -/

theorem mem_doubleQuotes {c : Char} {s : Str} (h : c ∈ doubleQuotes s) : c ∈ s := by
  induction s with
  | nil => simp [doubleQuotes] at h
  | cons d rest ih =>
    simp only [doubleQuotes, List.mem_append] at h
    rcases h with h | h
    · by_cases hd : d = '"'
      · simp [hd] at h
        simp [h, hd]
      · simp [hd] at h
        simp [h]
    · exact List.mem_cons_of_mem _ (ih h)

theorem doubleQuotes_of_not_mem {s : Str} (h : '"' ∉ s) : doubleQuotes s = s := by
  induction s with
  | nil => rfl
  | cons d rest ih =>
    have hd : d ≠ '"' := fun he => h (he ▸ List.mem_cons_self d rest)
    have hr : '"' ∉ rest := fun hm => h (List.mem_cons_of_mem _ hm)
    simp [doubleQuotes, hd, ih hr]

theorem escapeCSVValue_vstr (s : Str) :
    escapeCSVValue (.vstr s) =
      if needsQuotesB s then '"' :: (doubleQuotes s ++ ['"']) else doubleQuotes s := rfl

theorem escapeCSVValue_vnum (n : Int) :
    escapeCSVValue (.vnum n) =
      if needsQuotesB (jsString (.vnum n)) then
        '"' :: (doubleQuotes (jsString (.vnum n)) ++ ['"'])
      else doubleQuotes (jsString (.vnum n)) := rfl

theorem mem_escapeStr {c : Char} {s : Str}
    (h : c ∈ (if needsQuotesB s then '"' :: (doubleQuotes s ++ ['"']) else doubleQuotes s)) :
    c ∈ s ∨ c = '"' := by
  by_cases hq : needsQuotesB s
  · rw [if_pos hq] at h
    rcases List.mem_cons.1 h with rfl | h
    · exact Or.inr rfl
    · rcases List.mem_append.1 h with h | h
      · exact Or.inl (mem_doubleQuotes h)
      · simp at h; exact Or.inr h
  · rw [if_neg hq] at h
    exact Or.inl (mem_doubleQuotes h)

/-- Every character of an escaped cell is a character of the cell's string
form or a double quote. -/
theorem mem_escapeCSVValue {c : Char} {v : JSValue} (h : c ∈ escapeCSVValue v) :
    c ∈ cellStr v ∨ c = '"' := by
  cases v with
  | vundef => simp [escapeCSVValue] at h
  | vnull => simp [escapeCSVValue] at h
  | vstr s =>
    rw [escapeCSVValue_vstr] at h
    exact mem_escapeStr h
  | vnum n =>
    rw [escapeCSVValue_vnum] at h
    exact mem_escapeStr h

/-- A string of alphanumeric characters never needs quoting. -/
theorem needsQuotesB_eq_false_of_alnum {s : Str} (h : ∀ c ∈ s, isAlnumCh c = true) :
    needsQuotesB s = false := by
  have hany : s.any (fun c => c = '"' || c = ',' || c = '\n' || c = '\r') = false := by
    rw [List.any_eq_false]
    intro c hc
    obtain ⟨h1, h2, h3, h4, -⟩ := alnum_not_special (h c hc)
    simp [h1, h2, h3, h4]
  have hhead : (match s.head? with | none => false | some c => isJSWhitespace c) = false := by
    cases hh : s.head? with
    | none => rfl
    | some c =>
      have hc : c ∈ s := List.mem_of_mem_head? (by simp [hh])
      exact (alnum_not_special (h c hc)).2.2.2.2
  have hlast : (match s.getLast? with | none => false | some c => isJSWhitespace c) = false := by
    cases hh : s.getLast? with
    | none => rfl
    | some c =>
      have hc : c ∈ s := List.mem_of_getLast?_eq_some hh
      exact (alnum_not_special (h c hc)).2.2.2.2
  simp [needsQuotesB, hany, hhead, hlast]

/-- Escaping is the identity on alphanumeric string cells. -/
theorem escapeCSVValue_of_alnum {s : Str} (h : ∀ c ∈ s, isAlnumCh c = true) :
    escapeCSVValue (.vstr s) = s := by
  have hq : '"' ∉ s := fun hm => ((alnum_not_special (h _ hm)).1 rfl)
  simp [escapeCSVValue, jsString, needsQuotesB_eq_false_of_alnum h, doubleQuotes_of_not_mem hq]

/-! ### Lemmas about `joinWith` -/

theorem mem_joinWith {c : Char} {sep : Str} :
    ∀ {parts : List Str}, c ∈ joinWith sep parts → c ∈ sep ∨ ∃ p ∈ parts, c ∈ p
  | [], h => by simp [joinWith] at h
  | [x], h => by
    simp only [joinWith] at h
    exact Or.inr ⟨x, by simp, h⟩
  | x :: y :: rest, h => by
    simp only [joinWith, List.append_assoc, List.mem_append] at h
    rcases h with h | h | h
    · exact Or.inr ⟨x, by simp, h⟩
    · exact Or.inl h
    · rcases mem_joinWith h with h | ⟨p, hp, hc⟩
      · exact Or.inl h
      · exact Or.inr ⟨p, List.mem_cons_of_mem _ hp, hc⟩

theorem joinWith_ends_with_getLast (sep : Str) :
    ∀ (parts : List Str) (h : parts ≠ []), ∃ pre, joinWith sep parts = pre ++ parts.getLast h
  | [], h => absurd rfl h
  | [x], _ => ⟨[], by simp [joinWith]⟩
  | x :: y :: rest, _ => by
    obtain ⟨pre, hpre⟩ := joinWith_ends_with_getLast sep (y :: rest) (by simp)
    exact ⟨x ++ sep ++ pre, by simp [joinWith, hpre, List.getLast_cons]⟩

/-! ### Split functions invert `joinWith` on separator-free parts -/

theorem splitCh_of_not_mem {a : Char} : ∀ {p : Str}, a ∉ p → splitCh a p = [p]
  | [], _ => rfl
  | c :: rest, h => by
    have hc : ¬(c = a) := fun he => h (he ▸ List.mem_cons_self c rest)
    have hr : a ∉ rest := fun hm => h (List.mem_cons_of_mem _ hm)
    simp [splitCh, hc, splitCh_of_not_mem hr, consFirst]

theorem splitCh_append_sep {a : Char} : ∀ {p t : Str}, a ∉ p →
    splitCh a (p ++ a :: t) = p :: splitCh a t
  | [], t, _ => by simp [splitCh]
  | c :: p', t, h => by
    have hc : ¬(c = a) := fun he => h (he ▸ List.mem_cons_self c p')
    have hp' : a ∉ p' := fun hm => h (List.mem_cons_of_mem _ hm)
    simp [splitCh, hc, splitCh_append_sep hp', consFirst]

theorem splitCh_joinWith {a : Char} :
    ∀ {parts : List Str}, parts ≠ [] → (∀ p ∈ parts, a ∉ p) →
      splitCh a (joinWith [a] parts) = parts
  | [], h, _ => absurd rfl h
  | [x], _, hm => by
    simp only [joinWith]
    exact splitCh_of_not_mem (hm x (by simp))
  | x :: y :: rest, _, hm => by
    have hx : a ∉ x := hm x (by simp)
    have hrest : ∀ p ∈ y :: rest, a ∉ p := fun p hp => hm p (List.mem_cons_of_mem _ hp)
    calc splitCh a (joinWith [a] (x :: y :: rest))
        = splitCh a (x ++ a :: joinWith [a] (y :: rest)) := by simp [joinWith]
      _ = x :: splitCh a (joinWith [a] (y :: rest)) := splitCh_append_sep hx
      _ = x :: y :: rest := by rw [splitCh_joinWith (by simp) hrest]

theorem splitCRLF_of_not_mem : ∀ {p : Str}, '\r' ∉ p → splitCRLF p = [p]
  | [], _ => rfl
  | [_], _ => rfl
  | c₁ :: c₂ :: rest, h => by
    have hc : ¬(c₁ = '\r') := fun he => h (he ▸ List.mem_cons_self c₁ _)
    have hr : '\r' ∉ c₂ :: rest := fun hm => h (List.mem_cons_of_mem _ hm)
    simp [splitCRLF, hc, splitCRLF_of_not_mem hr, consFirst]

theorem splitCRLF_append_sep : ∀ (p t : Str), '\r' ∉ p →
    splitCRLF (p ++ '\r' :: '\n' :: t) = p :: splitCRLF t
  | [], t, _ => by simp [splitCRLF]
  | [c], t, h => by
    have hc : ¬(c = '\r') := fun he => h (he ▸ List.mem_cons_self c _)
    simp [splitCRLF, hc, consFirst]
  | c :: d :: p'', t, h => by
    have hc : ¬(c = '\r') := fun he => h (he ▸ List.mem_cons_self c _)
    have hp' : '\r' ∉ d :: p'' := fun hm => h (List.mem_cons_of_mem _ hm)
    have ih := splitCRLF_append_sep (d :: p'') t hp'
    simp only [List.cons_append] at ih ⊢
    rw [splitCRLF, if_neg (by simp [hc]), ih]
    simp [consFirst]

theorem splitCRLF_joinWith :
    ∀ {parts : List Str}, parts ≠ [] → (∀ p ∈ parts, '\r' ∉ p) →
      splitCRLF (joinWith ['\r', '\n'] parts) = parts
  | [], h, _ => absurd rfl h
  | [x], _, hm => by
    simp only [joinWith]
    exact splitCRLF_of_not_mem (hm x (by simp))
  | x :: y :: rest, _, hm => by
    have hx : '\r' ∉ x := hm x (by simp)
    have hrest : ∀ p ∈ y :: rest, '\r' ∉ p := fun p hp => hm p (List.mem_cons_of_mem _ hp)
    calc splitCRLF (joinWith ['\r', '\n'] (x :: y :: rest))
        = splitCRLF (x ++ '\r' :: '\n' :: joinWith ['\r', '\n'] (y :: rest)) := by
          simp [joinWith]
      _ = x :: splitCRLF (joinWith ['\r', '\n'] (y :: rest)) := splitCRLF_append_sep x _ hx
      _ = x :: y :: rest := by rw [splitCRLF_joinWith (by simp) hrest]

/-! ### Decimal representation lemmas for the timestamp -/

theorem natStr_eq_toDigits (n : Nat) : natStr n = Nat.toDigits 10 n := rfl

theorem toDigitsCore_step (fuel n : Nat) (ds : List Char) (hf : fuel ≠ 0)
    (h : ¬ n / 10 = 0) :
    Nat.toDigitsCore 10 fuel n ds =
      Nat.toDigitsCore 10 (fuel - 1) (n / 10) (Nat.digitChar (n % 10) :: ds) := by
  cases fuel with
  | zero => exact absurd rfl hf
  | succ f => simp [Nat.toDigitsCore, h]

theorem toDigitsCore_stop (fuel n : Nat) (ds : List Char) (hf : fuel ≠ 0)
    (h : n / 10 = 0) :
    Nat.toDigitsCore 10 fuel n ds = Nat.digitChar (n % 10) :: ds := by
  cases fuel with
  | zero => exact absurd rfl hf
  | succ f => simp [Nat.toDigitsCore, h]

theorem digitChar_isDigit : ∀ n : Nat, n < 10 → (Nat.digitChar n).isDigit = true := by decide

/-- The decimal form of a four-digit year: its four digit characters. -/
theorem natStr_year_eq (y : Nat) (h1 : 1000 ≤ y) (h2 : y ≤ 9999) :
    natStr y = [Nat.digitChar (y / 1000 % 10), Nat.digitChar (y / 100 % 10),
      Nat.digitChar (y / 10 % 10), Nat.digitChar (y % 10)] := by
  have e1 : y / 10 / 10 = y / 100 := by rw [Nat.div_div_eq_div_mul]
  have e2 : y / 100 / 10 = y / 1000 := by rw [Nat.div_div_eq_div_mul]
  have e3 : y / 1000 / 10 = y / 10000 := by rw [Nat.div_div_eq_div_mul]
  have d1 : ¬ y / 10 = 0 := by omega
  have d2 : ¬ y / 10 / 10 = 0 := by rw [e1]; omega
  have d3 : ¬ y / 10 / 10 / 10 = 0 := by rw [e1, e2]; omega
  have d4 : y / 10 / 10 / 10 / 10 = 0 := by rw [e1, e2, e3]; omega
  rw [natStr_eq_toDigits, Nat.toDigits,
    toDigitsCore_step _ _ _ (by omega) d1,
    toDigitsCore_step _ _ _ (by omega) d2,
    toDigitsCore_step _ _ _ (by omega) d3,
    toDigitsCore_stop _ _ _ (by omega) d4,
    e1, e2]

theorem natStr_year_facts (y : Nat) (h1 : 1000 ≤ y) (h2 : y ≤ 9999) :
    (natStr y).length = 4 ∧ ∀ c ∈ natStr y, c.isDigit = true := by
  rw [natStr_year_eq y h1 h2]
  refine ⟨rfl, ?_⟩
  intro c hc
  simp only [List.mem_cons, List.not_mem_nil, or_false] at hc
  rcases hc with rfl | rfl | rfl | rfl <;>
    exact digitChar_isDigit _ (Nat.mod_lt _ (by omega))

theorem natStr_small_facts : ∀ n : Nat, n < 100 →
    ((natStr n).length = 1 ∨ (natStr n).length = 2) ∧ ∀ c ∈ natStr n, c.isDigit = true := by
  decide

theorem pad2_length (n : Nat) (h : n < 100) : (pad2 n).length = 2 := by
  obtain ⟨hlen, -⟩ := natStr_small_facts n h
  simp only [pad2, List.length_append, List.length_replicate]
  omega

theorem pad2_digits (n : Nat) (h : n < 100) : ∀ c ∈ pad2 n, c.isDigit = true := by
  obtain ⟨-, hdig⟩ := natStr_small_facts n h
  intro c hc
  rcases List.mem_append.1 hc with hc | hc
  · rw [List.eq_of_mem_replicate hc]; rfl
  · exact hdig c hc

/-- Zero-padding: a one-digit field gets a leading zero. -/
theorem pad2_single_digit (n : Nat) (h : n < 10) : pad2 n = '0' :: natStr n := by
  have hlen : (natStr n).length = 1 := by
    have := natStr_small_facts n (by omega)
    rcases this.1 with h1 | h1
    · exact h1
    · exfalso
      rcases Nat.lt_or_ge n 10 with _ | h10
      · have : natStr n = [Nat.digitChar (n % 10)] := by
          rw [natStr_eq_toDigits, Nat.toDigits, toDigitsCore_stop _ _ _ (by omega) (by omega)]
        rw [this] at h1
        simp at h1
      · omega
  simp [pad2, hlen, List.replicate]

/-! ### Stability of the sort -/

theorem scoreDescLE_trans : ∀ a b c : SearchRecord,
    scoreDescLE a b → scoreDescLE b c → scoreDescLE a c := by
  intro a b c
  simp only [scoreDescLE, decide_eq_true_eq]
  omega

theorem scoreDescLE_total : ∀ a b : SearchRecord, scoreDescLE a b || scoreDescLE b a := by
  intro a b
  simp only [scoreDescLE, Bool.or_eq_true, decide_eq_true_eq]
  omega

/-- A stable sort leaves the relative order of any class of mutually
tied elements unchanged: filtering the sorted list by a predicate that only
selects mutually `le`-related elements gives the filter of the input. -/
theorem mergeSort_filter_eq {α : Type} (le : α → α → Bool)
    (htrans : ∀ a b c : α, le a b → le b c → le a c)
    (htotal : ∀ a b : α, le a b || le b a)
    (p : α → Bool) (hp : ∀ a b : α, p a → p b → le a b) (l : List α) :
    (l.mergeSort le).filter p = l.filter p := by
  have hpw : (l.filter p).Pairwise (fun a b => le a b) :=
    List.pairwise_of_forall_mem_list fun a ha b hb =>
      hp a b (List.of_mem_filter ha) (List.of_mem_filter hb)
  have h2 : List.Sublist (l.filter p) (l.mergeSort le) :=
    List.sublist_mergeSort htrans htotal hpw (List.filter_sublist l)
  have h4 := h2.filter p
  rw [List.filter_eq_self.mpr fun a ha => List.of_mem_filter ha] at h4
  have hperm : List.Perm ((l.mergeSort le).filter p) (l.filter p) :=
    (List.mergeSort_perm l le).filter p
  exact (h4.eq_of_length hperm.length_eq.symm).symm

/-! ### The quoting condition, as the specification words it -/

theorem head_match_iff (s : Str) :
    (match s.head? with | none => false | some c => isJSWhitespace c) = true ↔
      ∃ c, s.head? = some c ∧ isJSWhitespace c = true := by
  cases hh : s.head? with
  | none => simp
  | some c => simp

theorem getLast_match_iff (s : Str) :
    (match s.getLast? with | none => false | some c => isJSWhitespace c) = true ↔
      ∃ c, s.getLast? = some c ∧ isJSWhitespace c = true := by
  cases hh : s.getLast? with
  | none => simp
  | some c => simp

theorem any_special_iff (s : Str) :
    (s.any fun c => c = '"' || c = ',' || c = '\n' || c = '\r') = true ↔
      '"' ∈ s ∨ ',' ∈ s ∨ '\n' ∈ s ∨ '\r' ∈ s := by
  rw [List.any_eq_true]
  constructor
  · rintro ⟨x, hx, hq⟩
    simp only [Bool.or_eq_true, decide_eq_true_eq, or_assoc] at hq
    rcases hq with rfl | rfl | rfl | rfl <;> tauto
  · rintro (h | h | h | h) <;> exact ⟨_, h, by simp⟩

/-- The regex test of the source is exactly the quoting condition the
specification describes. -/
theorem needsQuotesB_iff (s : Str) : needsQuotesB s = true ↔ specNeedsQuoting s := by
  unfold needsQuotesB specNeedsQuoting
  rw [Bool.or_eq_true, Bool.or_eq_true, any_special_iff, head_match_iff, getLast_match_iff]
  constructor
  · rintro (((h | h | h | h) | h) | h)
    · exact Or.inl h
    · exact Or.inr (Or.inl h)
    · exact Or.inr (Or.inr (Or.inr (Or.inl h)))
    · exact Or.inr (Or.inr (Or.inl h))
    · exact Or.inr (Or.inr (Or.inr (Or.inr (Or.inl h))))
    · exact Or.inr (Or.inr (Or.inr (Or.inr (Or.inr h))))
  · rintro (h | h | h | h | h | h)
    · exact Or.inl (Or.inl (Or.inl h))
    · exact Or.inl (Or.inl (Or.inr (Or.inl h)))
    · exact Or.inl (Or.inl (Or.inr (Or.inr (Or.inr h))))
    · exact Or.inl (Or.inl (Or.inr (Or.inr (Or.inl h))))
    · exact Or.inl (Or.inr h)
    · exact Or.inr h

theorem count_doubleQuotes (s : Str) :
    (doubleQuotes s).count '"' = 2 * s.count '"' := by
  induction s with
  | nil => rfl
  | cons c rest ih =>
    by_cases hc : c = '"'
    · simp [doubleQuotes, hc, List.count_cons, List.count_append, ih]
      omega
    · simp [doubleQuotes, hc, List.count_cons, List.count_append, ih]

theorem rowGet_absent : ∀ (r : Row) (key : Str), (∀ kv ∈ r, kv.1 ≠ key) →
    rowGet r key = .vundef
  | [], _, _ => rfl
  | (k, v) :: rest, key, h => by
    have hk : ¬(k = key) := h (k, v) (by simp)
    simp only [rowGet, if_neg hk]
    exact rowGet_absent rest key fun kv hkv => h kv (List.mem_cons_of_mem _ hkv)

/-! ### Claim theorems -/

/-- C3: `escapeCSVValue` returns the empty string on `null`, `undefined` and
absent keys; on any other value it takes the canonical string representation,
doubles every embedded double-quote (the count of quote characters exactly
doubles), and wraps the result in double quotes iff the original string
contains a double-quote, comma, CR or LF, or has leading/trailing whitespace;
`Acme, Inc.` comes out as `"Acme, Inc."` and `Say "hi"` as `"Say ""hi"""`. -/
theorem escapeCSVValue_contract (v : JSValue) (s : Str) (r : Row) (key : Str)
    (hv1 : v ≠ .vnull) (hv2 : v ≠ .vundef) (habsent : ∀ kv ∈ r, kv.1 ≠ key) :
    escapeCSVValue .vnull = [] ∧ escapeCSVValue .vundef = [] ∧
    escapeCSVValue (rowGet r key) = [] ∧
    (specNeedsQuoting (jsString v) →
      escapeCSVValue v = '"' :: (doubleQuotes (jsString v) ++ ['"'])) ∧
    (¬ specNeedsQuoting (jsString v) → escapeCSVValue v = doubleQuotes (jsString v)) ∧
    (doubleQuotes s).count '"' = 2 * s.count '"' ∧
    escapeCSVValue (.vstr "Acme, Inc.".toList) = "\"Acme, Inc.\"".toList ∧
    escapeCSVValue (.vstr "Say \"hi\"".toList) = "\"Say \"\"hi\"\"\"".toList := by
  refine ⟨rfl, rfl, ?_, ?_, ?_, count_doubleQuotes s, by decide, by decide⟩
  · rw [rowGet_absent r key habsent]; rfl
  · intro hq
    have hb : needsQuotesB (jsString v) = true := (needsQuotesB_iff _).2 hq
    cases v with
    | vnull => exact absurd rfl hv1
    | vundef => exact absurd rfl hv2
    | vstr s' =>
      simp only [jsString] at hb ⊢
      rw [escapeCSVValue_vstr, if_pos hb]
    | vnum n => rw [escapeCSVValue_vnum, if_pos hb]
  · intro hq
    have hb : needsQuotesB (jsString v) = false := by
      cases hbb : needsQuotesB (jsString v) with
      | false => rfl
      | true => exact absurd ((needsQuotesB_iff _).1 hbb) hq
    cases v with
    | vnull => exact absurd rfl hv1
    | vundef => exact absurd rfl hv2
    | vstr s' =>
      simp only [jsString] at hb ⊢
      rw [escapeCSVValue_vstr, if_neg (by simp [hb])]
    | vnum n => rw [escapeCSVValue_vnum, if_neg (by simp [hb])]

theorem escapeCSVValue_contract_witness :
    (JSValue.vstr " padded".toList ≠ .vnull) ∧ (JSValue.vstr " padded".toList ≠ .vundef) ∧
    (∀ kv ∈ ([(("k".toList : Str), JSValue.vnum 1)] : Row), kv.1 ≠ "missing".toList) ∧
    (escapeCSVValue .vnull = [] ∧ escapeCSVValue .vundef = [] ∧
     escapeCSVValue (rowGet [(("k".toList : Str), JSValue.vnum 1)] "missing".toList) = [] ∧
     (specNeedsQuoting (jsString (.vstr " padded".toList)) →
       escapeCSVValue (.vstr " padded".toList) =
         '"' :: (doubleQuotes (jsString (.vstr " padded".toList)) ++ ['"'])) ∧
     (¬ specNeedsQuoting (jsString (.vstr " padded".toList)) →
       escapeCSVValue (.vstr " padded".toList) = doubleQuotes (jsString (.vstr " padded".toList))) ∧
     (doubleQuotes "Say \"hi\"".toList).count '"' = 2 * ("Say \"hi\"".toList).count '"' ∧
     escapeCSVValue (.vstr "Acme, Inc.".toList) = "\"Acme, Inc.\"".toList ∧
     escapeCSVValue (.vstr "Say \"hi\"".toList) = "\"Say \"\"hi\"\"\"".toList) :=
  ⟨by decide, by decide, by decide,
   escapeCSVValue_contract (.vstr " padded".toList) "Say \"hi\"".toList
     [(("k".toList : Str), JSValue.vnum 1)] "missing".toList
     (by decide) (by decide) (by decide)⟩

/-- C1 counterexample: the header line does NOT escape column names.  With
the single column name `a,b` (which as a data value would be emitted quoted),
`toCSV` emits the raw header `a,b`, not the escaped `"a,b"` the claim
requires. -/
theorem toCSV_header_unescaped_cx :
    toCSV [] ["a,b".toList] = "a,b".toList ∧
    escapeCSVValue (.vstr "a,b".toList) = "\"a,b\"".toList ∧
    toCSV [] ["a,b".toList] ≠
      joinWith [','] (["a,b".toList].map fun c => escapeCSVValue (.vstr c)) := by
  refine ⟨by decide, by decide, by decide⟩

/-- C1 amended: the header is the column names joined by `,` verbatim, with
no per-value escaping applied to them; the data lines (if any) follow after
a CRLF. -/
theorem toCSV_header_raw (rows : List Row) (columns : List Str) :
    ∃ rest, toCSV rows columns = joinWith [','] (resolveCols rows columns) ++ rest ∧
      (rows = [] → rest = []) ∧
      (rows ≠ [] → ∃ t, rest = '\r' :: '\n' :: t) := by
  cases rows with
  | nil =>
    refine ⟨[], ?_, fun _ => rfl, by simp⟩
    simp [toCSV, joinWith]
  | cons r rest' =>
    refine ⟨'\r' :: '\n' ::
      joinWith ['\r', '\n'] ((r :: rest').map fun row =>
        joinWith [','] ((resolveCols (r :: rest') columns).map
          fun c => escapeCSVValue (rowGet row c))), ?_, by simp, fun _ => ⟨_, rfl⟩⟩
    simp [toCSV, joinWith]

theorem toCSV_header_raw_witness :
    ∃ rest, toCSV [] ["a,b".toList] = joinWith [','] (resolveCols [] ["a,b".toList]) ++ rest ∧
      (([] : List Row) = [] → rest = []) ∧
      (([] : List Row) ≠ [] → ∃ t, rest = '\r' :: '\n' :: t) :=
  toCSV_header_raw [] ["a,b".toList]

/-- Helper: the items of a non-empty-query search are the stable-sorted
filtered records. -/
theorem mockSearch_items_eq (records : List SearchRecord) (query : Str)
    (h : normalizeQuery query ≠ []) :
    (mockSearch records query).items =
      (records.filter (matchesQuery (normalizeQuery query))).mergeSort scoreDescLE := by
  simp [mockSearch, h]

/-- C5: `toCSV` uses a non-empty `columns` argument verbatim; an empty one
falls back to the first row's key order, or to no columns at all; the
output of `toCSV([], [])` is the empty string, which is a single empty
line; and the header/data lines are joined by CRLF. -/
theorem toCSV_columns_crlf (rows : List Row) (columns : List Str) :
    (columns ≠ [] → resolveCols rows columns = columns) ∧
    (columns = [] → ∀ r rs, rows = r :: rs → resolveCols rows columns = r.map (·.1)) ∧
    (columns = [] → rows = [] → resolveCols rows columns = []) ∧
    toCSV [] [] = [] ∧ splitCRLF (toCSV [] []) = [[]] ∧
    (rows = [] → toCSV rows columns = joinWith [','] (resolveCols rows columns)) ∧
    (∀ r rs, rows = r :: rs →
      toCSV rows columns =
        joinWith [','] (resolveCols rows columns) ++ '\r' :: '\n' ::
          joinWith ['\r', '\n'] (rows.map fun row =>
            joinWith [','] ((resolveCols rows columns).map fun c =>
              escapeCSVValue (rowGet row c)))) := by
  refine ⟨?_, ?_, ?_, by decide, by decide, ?_, ?_⟩
  · intro hc
    simp [resolveCols, hc]
  · intro hc r rs hr
    subst hc; subst hr
    simp [resolveCols]
  · intro hc hr
    subst hc; subst hr
    simp [resolveCols]
  · intro hr
    subst hr
    simp [toCSV, joinWith]
  · intro r rs hr
    subst hr
    simp [toCSV, joinWith]

theorem toCSV_columns_crlf_witness :
    ((["id".toList] : List Str) ≠ [] →
      resolveCols [[(("id".toList : Str), JSValue.vnum 7)]] ["id".toList] = ["id".toList]) ∧
    ((["id".toList] : List Str) = [] → ∀ r rs,
      [[(("id".toList : Str), JSValue.vnum 7)]] = r :: rs →
      resolveCols [[(("id".toList : Str), JSValue.vnum 7)]] ["id".toList] = r.map (·.1)) ∧
    ((["id".toList] : List Str) = [] → [[(("id".toList : Str), JSValue.vnum 7)]] = [] →
      resolveCols [[(("id".toList : Str), JSValue.vnum 7)]] ["id".toList] = []) ∧
    toCSV [] [] = [] ∧ splitCRLF (toCSV [] []) = [[]] ∧
    ([[(("id".toList : Str), JSValue.vnum 7)]] = ([] : List Row) →
      toCSV [[(("id".toList : Str), JSValue.vnum 7)]] ["id".toList] =
        joinWith [','] (resolveCols [[(("id".toList : Str), JSValue.vnum 7)]] ["id".toList])) ∧
    (∀ r rs, [[(("id".toList : Str), JSValue.vnum 7)]] = r :: rs →
      toCSV [[(("id".toList : Str), JSValue.vnum 7)]] ["id".toList] =
        joinWith [','] (resolveCols [[(("id".toList : Str), JSValue.vnum 7)]] ["id".toList]) ++
          '\r' :: '\n' ::
          joinWith ['\r', '\n'] ([[(("id".toList : Str), JSValue.vnum 7)]].map fun row =>
            joinWith [','] ((resolveCols [[(("id".toList : Str), JSValue.vnum 7)]]
              ["id".toList]).map fun c => escapeCSVValue (rowGet row c)))) :=
  toCSV_columns_crlf [[(("id".toList : Str), JSValue.vnum 7)]] ["id".toList]

/-- C2: for a query with non-empty normalized form, every returned item
matches on lowercased name or category, every item is drawn from the source
records, items are sorted by score descending, and within every score class
the source order is preserved (stable tie-break). -/
theorem mockSearch_filter_sort_contract (records : List SearchRecord) (query : Str)
    (h : normalizeQuery query ≠ []) :
    (∀ r ∈ (mockSearch records query).items,
      includesJS (lowerJS r.name) (normalizeQuery query) = true ∨
      includesJS (lowerJS r.category) (normalizeQuery query) = true) ∧
    (∀ r ∈ (mockSearch records query).items, r ∈ records) ∧
    (mockSearch records query).items.Pairwise (fun a b => b.score ≤ a.score) ∧
    (∀ s : Int, (mockSearch records query).items.filter (fun r => decide (r.score = s)) =
      (records.filter (matchesQuery (normalizeQuery query))).filter
        (fun r => decide (r.score = s))) := by
  rw [mockSearch_items_eq records query h]
  refine ⟨?_, ?_, ?_, ?_⟩
  · intro r hr
    have hm := List.of_mem_filter (List.mem_mergeSort.1 hr)
    simpa [matchesQuery, Bool.or_eq_true] using hm
  · intro r hr
    exact (List.mem_filter.1 (List.mem_mergeSort.1 hr)).1
  · have hs := List.sorted_mergeSort scoreDescLE_trans scoreDescLE_total
      (records.filter (matchesQuery (normalizeQuery query)))
    exact hs.imp fun hab => by simpa [scoreDescLE] using hab
  · intro s
    exact mergeSort_filter_eq scoreDescLE scoreDescLE_trans scoreDescLE_total _
      (fun a b ha hb => by
        simp only [decide_eq_true_eq] at ha hb
        simp [scoreDescLE, ha, hb]) _

theorem mockSearch_filter_sort_contract_witness :
    normalizeQuery "analytics".toList ≠ [] ∧
    ((∀ r ∈ (mockSearch MOCK_DATA "analytics".toList).items,
        includesJS (lowerJS r.name) (normalizeQuery "analytics".toList) = true ∨
        includesJS (lowerJS r.category) (normalizeQuery "analytics".toList) = true) ∧
     (∀ r ∈ (mockSearch MOCK_DATA "analytics".toList).items, r ∈ MOCK_DATA) ∧
     (mockSearch MOCK_DATA "analytics".toList).items.Pairwise (fun a b => b.score ≤ a.score) ∧
     (∀ s : Int, (mockSearch MOCK_DATA "analytics".toList).items.filter
        (fun r => decide (r.score = s)) =
      (MOCK_DATA.filter (matchesQuery (normalizeQuery "analytics".toList))).filter
        (fun r => decide (r.score = s)))) :=
  ⟨by decide, mockSearch_filter_sort_contract MOCK_DATA "analytics".toList (by decide)⟩

/-- C4: a query whose trimmed lowercased form is empty takes the dedicated
branch: no items, the fixed instructional explanation, and a single fixed
tip — and this output differs from the zero-result case of the general
branch, whose explanation string and three-element tips list are distinct. -/
theorem mockSearch_empty_branch (records records' : List SearchRecord) (q q' : Str)
    (h : normalizeQuery q = []) (h' : normalizeQuery q' ≠ [])
    (hz : records'.filter (matchesQuery (normalizeQuery q')) = []) :
    mockSearch records q = ⟨[], emptyQueryExplanation, [emptyQueryTip]⟩ ∧
    (mockSearch records' q').explanation ≠ emptyQueryExplanation ∧
    (mockSearch records' q').tips ≠ [emptyQueryTip] := by
  refine ⟨by simp [mockSearch, h], ?_, ?_⟩
  · have heq : (mockSearch records' q').explanation = showingExplanation 0 q' := by
      simp [mockSearch, h', hz]
    rw [heq]
    intro hcontra
    have h1 : (showingExplanation 0 q').head? = some 'S' := rfl
    rw [hcontra] at h1
    exact absurd h1 (by decide)
  · have heq : (mockSearch records' q').tips = showingTips q' := by
      simp [mockSearch, h']
    rw [heq]
    intro hcontra
    have hlen := congrArg List.length hcontra
    simp [showingTips] at hlen

theorem mockSearch_empty_branch_witness :
    normalizeQuery "   ".toList = [] ∧ normalizeQuery "zzz".toList ≠ [] ∧
    MOCK_DATA.filter (matchesQuery (normalizeQuery "zzz".toList)) = [] ∧
    (mockSearch MOCK_DATA "   ".toList = ⟨[], emptyQueryExplanation, [emptyQueryTip]⟩ ∧
     (mockSearch MOCK_DATA "zzz".toList).explanation ≠ emptyQueryExplanation ∧
     (mockSearch MOCK_DATA "zzz".toList).tips ≠ [emptyQueryTip]) :=
  ⟨by decide, by decide, by decide,
   mockSearch_empty_branch MOCK_DATA MOCK_DATA "   ".toList "zzz".toList
     (by decide) (by decide) (by decide)⟩

/-- C6: the export filename is
`results_<query-or-"empty">_<timestamp>.csv`; the middle segment is never
empty (an empty submitted query is replaced by the literal token `empty`),
and the timestamp is `YYYYMMDD-HHMMSS` in local time: a four-digit year
followed by five two-digit zero-padded fields with a `-` between date and
time. -/
theorem export_filename_contract (q : Str) (d : LocalDate)
    (hy1 : 1000 ≤ d.fullYear) (hy2 : d.fullYear ≤ 9999) (hmo : d.month0 + 1 ≤ 12)
    (hd : d.day ≤ 31) (hh : d.hours ≤ 23) (hmi : d.minutes ≤ 59) (hs : d.seconds ≤ 59) :
    (∃ mid, mid ≠ [] ∧
      exportFilteredName q d =
        "results_".toList ++ mid ++ "_".toList ++ timestampStr d ++ ".csv".toList ∧
      (q = [] → mid = "empty".toList) ∧ (q ≠ [] → mid = q)) ∧
    (natStr d.fullYear).length = 4 ∧
    (pad2 (d.month0 + 1)).length = 2 ∧ (pad2 d.day).length = 2 ∧
    (pad2 d.hours).length = 2 ∧ (pad2 d.minutes).length = 2 ∧ (pad2 d.seconds).length = 2 ∧
    (timestampStr d).length = 15 ∧
    (∀ c ∈ timestampStr d, c.isDigit = true ∨ c = '-') ∧
    (∀ n : Nat, n < 10 → pad2 n = '0' :: natStr n) := by
  have hy := natStr_year_facts d.fullYear hy1 hy2
  have l1 := pad2_length (d.month0 + 1) (by omega)
  have l2 := pad2_length d.day (by omega)
  have l3 := pad2_length d.hours (by omega)
  have l4 := pad2_length d.minutes (by omega)
  have l5 := pad2_length d.seconds (by omega)
  refine ⟨⟨if q = [] then "empty".toList else q, ?_, rfl, ?_, ?_⟩,
    hy.1, l1, l2, l3, l4, l5, ?_, ?_, fun n hn => pad2_single_digit n hn⟩
  · by_cases hq : q = []
    · rw [if_pos hq]; decide
    · rw [if_neg hq]; exact hq
  · intro hq; rw [if_pos hq]
  · intro hq; rw [if_neg hq]
  · simp [timestampStr, List.length_append, hy.1, l1, l2, l3, l4, l5]
  · intro c hc
    simp only [timestampStr, List.mem_append] at hc
    rcases hc with ((((((hc | hc) | hc) | hc) | hc) | hc) | hc)
    · exact Or.inl (hy.2 c hc)
    · exact Or.inl (pad2_digits _ (by omega) c hc)
    · exact Or.inl (pad2_digits _ (by omega) c hc)
    · rw [show "-".toList = ['-'] from rfl] at hc
      exact Or.inr (List.eq_of_mem_singleton hc)
    · exact Or.inl (pad2_digits _ (by omega) c hc)
    · exact Or.inl (pad2_digits _ (by omega) c hc)
    · exact Or.inl (pad2_digits _ (by omega) c hc)

theorem export_filename_contract_witness :
    (1000 ≤ (2025 : Nat) ∧ (2025 : Nat) ≤ 9999) ∧
    ((∃ mid, mid ≠ [] ∧
      exportFilteredName "fintech".toList ⟨2025, 8, 25, 2, 15, 30⟩ =
        "results_".toList ++ mid ++ "_".toList ++
          timestampStr ⟨2025, 8, 25, 2, 15, 30⟩ ++ ".csv".toList ∧
      ("fintech".toList = ([] : Str) → mid = "empty".toList) ∧
      ("fintech".toList ≠ ([] : Str) → mid = "fintech".toList)) ∧
    (natStr 2025).length = 4 ∧
    (pad2 9).length = 2 ∧ (pad2 25).length = 2 ∧
    (pad2 2).length = 2 ∧ (pad2 15).length = 2 ∧ (pad2 30).length = 2 ∧
    (timestampStr ⟨2025, 8, 25, 2, 15, 30⟩).length = 15 ∧
    (∀ c ∈ timestampStr ⟨2025, 8, 25, 2, 15, 30⟩, c.isDigit = true ∨ c = '-') ∧
    (∀ n : Nat, n < 10 → pad2 n = '0' :: natStr n)) :=
  ⟨⟨by omega, by omega⟩,
   export_filename_contract "fintech".toList ⟨2025, 8, 25, 2, 15, 30⟩
     (by decide) (by decide) (by decide) (by decide) (by decide) (by decide) (by decide)⟩

/-- C7: `mockSearch` and `toCSV` are total: every query, record collection,
row collection and column list produces a defined result — no error branch
exists.  The result is additionally well-formed: the tips list has one or
three entries and the item count never exceeds the input size. -/
theorem search_toCSV_total (records : List SearchRecord) (query : Str)
    (rows : List Row) (columns : List Str) :
    (∃ res : SearchResult, mockSearch records query = res) ∧
    ((mockSearch records query).tips.length = 1 ∨
      (mockSearch records query).tips.length = 3) ∧
    (mockSearch records query).items.length ≤ records.length ∧
    (∃ out : Str, toCSV rows columns = out) := by
  refine ⟨⟨_, rfl⟩, ?_, ?_, ⟨_, rfl⟩⟩
  · by_cases h : normalizeQuery query = []
    · left; simp [mockSearch, h]
    · right; simp [mockSearch, h, showingTips]
  · by_cases h : normalizeQuery query = []
    · simp [mockSearch, h]
    · rw [mockSearch_items_eq records query h, List.length_mergeSort]
      exact List.length_filter_le _ _

/-- C9: `mockSearch` and `toCSV` are pure functions of their inputs: equal
inputs give equal outputs.  (The embedding is purely functional, matching
the absence of any mutation in the source: neither function writes to the
record collection or any other state.) -/
theorem search_toCSV_deterministic (records₁ records₂ : List SearchRecord) (q₁ q₂ : Str)
    (rows₁ rows₂ : List Row) (cols₁ cols₂ : List Str)
    (hrec : records₁ = records₂) (hq : q₁ = q₂) (hrows : rows₁ = rows₂)
    (hcols : cols₁ = cols₂) :
    mockSearch records₁ q₁ = mockSearch records₂ q₂ ∧
    toCSV rows₁ cols₁ = toCSV rows₂ cols₂ := by
  subst hrec; subst hq; subst hrows; subst hcols
  exact ⟨rfl, rfl⟩

theorem search_toCSV_deterministic_witness :
    MOCK_DATA = MOCK_DATA ∧ "a".toList = "a".toList ∧
    ([] : List Row) = ([] : List Row) ∧ (["x".toList] : List Str) = ["x".toList] ∧
    (mockSearch MOCK_DATA "a".toList = mockSearch MOCK_DATA "a".toList ∧
     toCSV [] ["x".toList] = toCSV [] ["x".toList]) :=
  ⟨rfl, rfl, rfl, rfl,
   search_toCSV_deterministic MOCK_DATA MOCK_DATA "a".toList "a".toList [] []
     ["x".toList] ["x".toList] rfl rfl rfl rfl⟩

/-! ### Line structure of the CSV output -/

theorem joinComma_no_char {c : Char} {cols : List Str} (hc : c ≠ ',')
    (h : ∀ name ∈ cols, c ∉ name) : c ∉ joinWith [','] cols := by
  intro hm
  rcases mem_joinWith hm with hs | ⟨p, hp, hcp⟩
  · exact hc (List.eq_of_mem_singleton hs)
  · exact h p hp hcp

theorem line_no_char {c : Char} (hc1 : c ≠ ',') (hc2 : c ≠ '"') (r : Row) (cols : List Str)
    (h : ∀ col ∈ cols, c ∉ cellStr (rowGet r col)) :
    c ∉ joinWith [','] (cols.map fun col => escapeCSVValue (rowGet r col)) := by
  apply joinComma_no_char hc1
  intro cell hcell
  rcases List.mem_map.1 hcell with ⟨col, hcol, rfl⟩
  intro hmem
  rcases mem_escapeCSVValue hmem with hcs | rfl
  · exact h col hcol hcs
  · exact hc2 rfl

theorem toCSV_eq_joinWith (rows : List Row) (columns : List Str) :
    toCSV rows columns =
      joinWith ['\r', '\n'] (joinWith [','] (resolveCols rows columns) ::
        rows.map fun r => joinWith [','] ((resolveCols rows columns).map
          fun col => escapeCSVValue (rowGet r col))) := rfl

/-- When no column name or cell string contains CR or LF, splitting the
output on CRLF recovers exactly the header line and the row lines. -/
theorem toCSV_parts_eq (rows : List Row) (columns : List Str)
    (hnames : ∀ name ∈ resolveCols rows columns, '\r' ∉ name ∧ '\n' ∉ name)
    (hcells : ∀ r ∈ rows, ∀ col ∈ resolveCols rows columns,
      '\r' ∉ cellStr (rowGet r col) ∧ '\n' ∉ cellStr (rowGet r col)) :
    splitCRLF (toCSV rows columns) =
      joinWith [','] (resolveCols rows columns) ::
        rows.map (fun r => joinWith [','] ((resolveCols rows columns).map
          fun col => escapeCSVValue (rowGet r col))) := by
  rw [toCSV_eq_joinWith]
  apply splitCRLF_joinWith (by simp)
  intro p hp
  rcases List.mem_cons.1 hp with rfl | hp
  · exact joinComma_no_char (by decide) (fun name hn => (hnames name hn).1)
  · rcases List.mem_map.1 hp with ⟨r, hr, rfl⟩
    exact line_no_char (by decide) (by decide) r _
      fun col hcol => (hcells r hr col hcol).1

/-- C8 counterexample: at `rows = []`, `columns = []` (all alphanumeric
conditions hold vacuously) the output is the empty string; splitting it on
CRLF gives one empty line, and splitting that line on commas gives one empty
cell `[[""]]` — not the original empty column list followed by no rows. -/
theorem toCSV_roundtrip_cx :
    (splitCRLF (toCSV [] [])).map (splitCh ',') ≠ [resolveCols [] []] := by
  decide

/-- C8 amended: for a row set whose resolved column list is non-empty and
whose column names and cell values are plain alphanumeric strings, splitting
the CSV on CRLF and each line on commas reconstructs the header (column
list) followed by each row's cell strings in order. -/
theorem toCSV_roundtrip (rows : List Row) (columns : List Str)
    (hne : resolveCols rows columns ≠ [])
    (hnames : ∀ name ∈ resolveCols rows columns, ∀ c ∈ name, isAlnumCh c = true)
    (hcells : ∀ r ∈ rows, ∀ col ∈ resolveCols rows columns,
      ∃ s, rowGet r col = .vstr s ∧ ∀ c ∈ s, isAlnumCh c = true) :
    (splitCRLF (toCSV rows columns)).map (splitCh ',') =
      resolveCols rows columns ::
        rows.map (fun r => (resolveCols rows columns).map
          fun col => cellStr (rowGet r col)) := by
  have hcell' : ∀ r ∈ rows, ∀ col ∈ resolveCols rows columns,
      escapeCSVValue (rowGet r col) = cellStr (rowGet r col) ∧
      ∀ c ∈ cellStr (rowGet r col), isAlnumCh c = true := by
    intro r hr col hcol
    obtain ⟨s, hsv, hsa⟩ := hcells r hr col hcol
    rw [hsv]
    exact ⟨escapeCSVValue_of_alnum hsa, hsa⟩
  have hparts := toCSV_parts_eq rows columns
    (fun name hn =>
      ⟨fun hm => (alnum_not_special (hnames name hn _ hm)).2.2.2.1 rfl,
       fun hm => (alnum_not_special (hnames name hn _ hm)).2.2.1 rfl⟩)
    (fun r hr col hcol =>
      ⟨fun hm => (alnum_not_special ((hcell' r hr col hcol).2 _ hm)).2.2.2.1 rfl,
       fun hm => (alnum_not_special ((hcell' r hr col hcol).2 _ hm)).2.2.1 rfl⟩)
  rw [hparts]
  rw [List.map_cons, List.map_map]
  congr 1
  · exact splitCh_joinWith hne
      fun name hn hm => (alnum_not_special (hnames name hn _ hm)).2.1 rfl
  · apply List.map_congr_left
    intro r hr
    have hmapeq : (resolveCols rows columns).map (fun col => escapeCSVValue (rowGet r col)) =
        (resolveCols rows columns).map (fun col => cellStr (rowGet r col)) :=
      List.map_congr_left fun col hcol => (hcell' r hr col hcol).1
    show splitCh ',' (joinWith [','] ((resolveCols rows columns).map
      fun col => escapeCSVValue (rowGet r col))) = _
    rw [hmapeq]
    apply splitCh_joinWith
    · intro hmap
      exact hne (List.map_eq_nil_iff.1 hmap)
    · intro cell hcell hm
      rcases List.mem_map.1 hcell with ⟨col, hcol, rfl⟩
      exact (alnum_not_special ((hcell' r hr col hcol).2 _ hm)).2.1 rfl

theorem toCSV_roundtrip_witness :
    resolveCols [[(("a".toList : Str), JSValue.vstr "x".toList)]] ["a".toList] ≠ [] ∧
    (∀ name ∈ resolveCols [[(("a".toList : Str), JSValue.vstr "x".toList)]] ["a".toList],
      ∀ c ∈ name, isAlnumCh c = true) ∧
    (∀ r ∈ [[(("a".toList : Str), JSValue.vstr "x".toList)]],
      ∀ col ∈ resolveCols [[(("a".toList : Str), JSValue.vstr "x".toList)]] ["a".toList],
      ∃ s, rowGet r col = .vstr s ∧ ∀ c ∈ s, isAlnumCh c = true) ∧
    (splitCRLF (toCSV [[(("a".toList : Str), JSValue.vstr "x".toList)]]
        ["a".toList])).map (splitCh ',') =
      resolveCols [[(("a".toList : Str), JSValue.vstr "x".toList)]] ["a".toList] ::
        [[(("a".toList : Str), JSValue.vstr "x".toList)]].map
          (fun r => (resolveCols [[(("a".toList : Str), JSValue.vstr "x".toList)]]
            ["a".toList]).map fun col => cellStr (rowGet r col)) := by
  have hcells : ∀ r ∈ [[(("a".toList : Str), JSValue.vstr "x".toList)]],
      ∀ col ∈ resolveCols [[(("a".toList : Str), JSValue.vstr "x".toList)]] ["a".toList],
      ∃ s, rowGet r col = .vstr s ∧ ∀ c ∈ s, isAlnumCh c = true := by
    intro r hr col hcol
    rw [List.mem_singleton] at hr
    subst hr
    rw [show resolveCols [[(("a".toList : Str), JSValue.vstr "x".toList)]] ["a".toList] =
      ["a".toList] from by decide] at hcol
    rw [List.mem_singleton] at hcol
    subst hcol
    exact ⟨"x".toList, by decide, by decide⟩
  exact ⟨by decide, by decide, hcells,
    toCSV_roundtrip [[(("a".toList : Str), JSValue.vstr "x".toList)]] ["a".toList]
      (by decide) (by decide) hcells⟩

/-- C10 counterexample: for a single row with no keys and no columns the
output is exactly the CRLF pair, which does end with a line terminator (the
separator before the empty last line). -/
theorem toCSV_trailing_crlf_cx :
    toCSV [([] : Row)] [] = ['\r', '\n'] ∧ ['\r', '\n'] <:+ toCSV [([] : Row)] [] := by
  refine ⟨by decide, ⟨[], by decide⟩⟩

/-- C10 amended: when no resolved column name or cell string contains CR or
LF, splitting the output on CRLF yields exactly `1 + (number of rows)`
lines, and the output can end in CRLF only when the last of these lines is
empty — no terminator is appended after a non-empty last line. -/
theorem toCSV_line_count (rows : List Row) (columns : List Str)
    (hnames : ∀ name ∈ resolveCols rows columns, '\r' ∉ name ∧ '\n' ∉ name)
    (hcells : ∀ r ∈ rows, ∀ col ∈ resolveCols rows columns,
      '\r' ∉ cellStr (rowGet r col) ∧ '\n' ∉ cellStr (rowGet r col)) :
    (splitCRLF (toCSV rows columns)).length = 1 + rows.length ∧
    (∀ lst, (splitCRLF (toCSV rows columns)).getLast? = some lst → lst ≠ [] →
      ¬ (['\r', '\n'] <:+ toCSV rows columns)) := by
  have hparts := toCSV_parts_eq rows columns hnames hcells
  constructor
  · rw [hparts]
    simp
    omega
  · intro lst hlst hlstne hsuf
    rw [hparts] at hlst
    have hpne : joinWith [','] (resolveCols rows columns) ::
        rows.map (fun r => joinWith [','] ((resolveCols rows columns).map
          fun col => escapeCSVValue (rowGet r col))) ≠ [] := by simp
    have hlast_eq : (joinWith [','] (resolveCols rows columns) ::
        rows.map (fun r => joinWith [','] ((resolveCols rows columns).map
          fun col => escapeCSVValue (rowGet r col)))).getLast hpne = lst := by
      have h0 := List.getLast?_eq_getLast (joinWith [','] (resolveCols rows columns) ::
        rows.map (fun r => joinWith [','] ((resolveCols rows columns).map
          fun col => escapeCSVValue (rowGet r col)))) hpne
      rw [hlst] at h0
      exact (Option.some_inj.1 h0).symm
    obtain ⟨pre, hpre⟩ := joinWith_ends_with_getLast ['\r', '\n'] _ hpne
    have hout : toCSV rows columns = pre ++ lst := by
      rw [toCSV_eq_joinWith, hpre, hlast_eq]
    obtain ⟨t, ht⟩ := hsuf
    have h1 : (toCSV rows columns).getLast? = some '\n' := by
      rw [← ht, show t ++ ['\r', '\n'] = (t ++ ['\r']) ++ ['\n'] by simp]
      exact List.getLast?_concat _
    have h2 : lst.getLast? = some '\n' := by
      rw [hout, List.getLast?_append_of_ne_nil pre hlstne] at h1
      exact h1
    have h3 : '\n' ∈ lst := List.mem_of_getLast?_eq_some h2
    have h4 : lst ∈ joinWith [','] (resolveCols rows columns) ::
        rows.map (fun r => joinWith [','] ((resolveCols rows columns).map
          fun col => escapeCSVValue (rowGet r col))) := by
      rw [← hlast_eq]
      exact List.getLast_mem hpne
    rcases List.mem_cons.1 h4 with rfl | h4
    · exact joinComma_no_char (by decide) (fun name hn => (hnames name hn).2) h3
    · rcases List.mem_map.1 h4 with ⟨r, hr, rfl⟩
      exact line_no_char (by decide) (by decide) r _
        (fun col hcol => (hcells r hr col hcol).2) h3

theorem toCSV_line_count_witness :
    (∀ name ∈ resolveCols [[(("a".toList : Str), JSValue.vnull)]] ["a".toList],
      '\r' ∉ name ∧ '\n' ∉ name) ∧
    (∀ r ∈ [[(("a".toList : Str), JSValue.vnull)]],
      ∀ col ∈ resolveCols [[(("a".toList : Str), JSValue.vnull)]] ["a".toList],
      '\r' ∉ cellStr (rowGet r col) ∧ '\n' ∉ cellStr (rowGet r col)) ∧
    ((splitCRLF (toCSV [[(("a".toList : Str), JSValue.vnull)]] ["a".toList])).length =
      1 + [[(("a".toList : Str), JSValue.vnull)]].length ∧
     (∀ lst, (splitCRLF (toCSV [[(("a".toList : Str), JSValue.vnull)]]
        ["a".toList])).getLast? = some lst → lst ≠ [] →
      ¬ (['\r', '\n'] <:+ toCSV [[(("a".toList : Str), JSValue.vnull)]] ["a".toList]))) :=
  ⟨by decide, by decide,
   toCSV_line_count [[(("a".toList : Str), JSValue.vnull)]] ["a".toList]
     (by decide) (by decide)⟩
